import Mathlib

/-!
Verification of the Gemini-CLI MCP adapter (TypeScript sources).

This file shallowly embeds the logic of the repository's core components:

* `preprocessMessage` — `@filename` reference expansion (src/src/server.ts, lines 68-87);
* `captureResponse` — the polling completion detector (src/src/server.ts, lines 128-225),
  modelled as a step function over an explicit state plus a run over a finite list of
  timed poll results (a `none` poll models a tmux capture failure caught by the
  `try/catch` inside the loop);
* `extractGeminiResponse` — the response extractor (src/src/server.ts, lines 245-356);
* `sendOneShot` and the one-shot `gemini_send` handler (src/unnamed/part_002),
  modelled over an abstract description of the child process's observable behaviour.

JavaScript strings are modelled as Lean `String` via their `List Char` data; the
regular expressions of `responsePatterns` are translated to executable predicates.
JS `\s` (and `String.prototype.trim`) use a Unicode whitespace class; we model the
characters that can actually occur in the repository's marker sets and transcripts
(space, tab, CR, LF, VT, FF, NBSP, BOM).  JS `String.length` counts UTF-16 code
units; we count characters, which agrees on all non-astral text.
-/

/-- The JS `\s` whitespace class (restricted as described in the header). -/
def isJsWS (c : Char) : Bool :=
  c = ' ' || c = '\t' || c = '\n' || c = '\r' ||
  c = (Char.ofNat 11) || c = (Char.ofNat 12) || c = (Char.ofNat 160) || c = (Char.ofNat 65279)

/-- Test `listStartsWith pat l`: `pat` is a prefix of `l` (char-exact). -/
def listStartsWith : List Char → List Char → Bool
  | [], _ => true
  | _ :: _, [] => false
  | p :: ps, c :: cs => p = c && listStartsWith ps cs

/-- Containment `hasSub l pat`, modelling JS `l.includes(pat)`: `pat` occurs contiguously in `l`. -/
def hasSub : List Char → List Char → Bool
  | [], pat => pat.isEmpty
  | c :: cs, pat => listStartsWith pat (c :: cs) || hasSub cs pat

/-- String-level wrapper for `hasSub`, modelling JS `s.includes(pat)`. -/
def includesS (s pat : String) : Bool := hasSub s.data pat.data

/-- ASCII lower-casing, modelling the `/i` regex flag on the ASCII status words. -/
def lcChar (c : Char) : Char := c.toLower

/-- Case-insensitive containment, for the `/.../i` status-word regex. -/
def ciHasSub (l : List Char) (pat : String) : Bool :=
  hasSub (l.map lcChar) (pat.data.map lcChar)

/-- Option test `optAny p o`: `p a` when `o = some a`, else `false`. -/
def optAny {α : Type} (p : α → Bool) : Option α → Bool
  | none => false
  | some a => p a

/-- JS `s.split('\n')` on character lists: always returns at least one line,
    lines do not contain `'\n'`. -/
def splitLinesL : List Char → List (List Char)
  | [] => [[]]
  | c :: rest =>
    if c = '\n' then [] :: splitLinesL rest
    else
      match splitLinesL rest with
      | l :: ls => (c :: l) :: ls
      | [] => [[c]]

/-- JS `lines.join('\n')` on character lists. -/
def joinLinesL : List (List Char) → List Char
  | [] => []
  | [l] => l
  | l :: ls => l ++ '\n' :: joinLinesL ls

/-- JS `String.prototype.trim` on character lists: strip leading and trailing
    whitespace (the class `isJsWS`, which includes newlines). -/
def jsTrimL (cs : List Char) : List Char :=
  ((cs.dropWhile isJsWS).reverse.dropWhile isJsWS).reverse

/-- JS `s.trim()` on strings. -/
def jsTrim (s : String) : String := ⟨jsTrimL s.data⟩

/-- First index whose element satisfies `p` (the upward search loops of the source). -/
def findFirstIdx {α : Type} (p : α → Bool) : List α → Option Nat
  | [] => none
  | a :: as => if p a then some 0 else (findFirstIdx p as).map (· + 1)

/-- Last index whose element satisfies `p` (the backward search loops of the source). -/
def findLastIdx {α : Type} (p : α → Bool) : List α → Option Nat
  | [] => none
  | a :: as =>
    match findLastIdx p as with
    | some i => some (i + 1)
    | none => if p a then some 0 else none

/-! ## `responsePatterns` (src/src/server.ts, lines 27-38) -/

/-- The spinner glyph set of `responsePatterns.processing = /[⠦⠴⠼⠹⠸⠧]/`. -/
def spinnerGlyphs : List Char := ['⠦', '⠴', '⠼', '⠹', '⠸', '⠧']

/-- Model of `responsePatterns.processing.test(s)`: the string contains a spinner glyph. -/
def processingL (l : List Char) : Bool := l.any (fun c => spinnerGlyphs.contains c)

/-- Wrapper for `processingL` on strings. -/
def processingS (s : String) : Bool := processingL s.data

/-- Model of `responsePatterns.searchingStatus.test(s)`:
    `/(?:Searching|Translating|GoogleSearch|Processing|Thinking)/i`. -/
def searchingL (l : List Char) : Bool :=
  ciHasSub l ("Searching") || ciHasSub l ("Translating") || ciHasSub l ("GoogleSearch") ||
  ciHasSub l ("Processing") || ciHasSub l ("Thinking")

/-- Wrapper for `searchingL` on strings. -/
def searchingS (s : String) : Bool := searchingL s.data

/-- Pattern `responsePatterns.geminiStart = /^✦\s+/m` tested against a single split-off line
    (which contains no newline): the line starts with `✦` followed by whitespace. -/
def geminiStartLine (l : List Char) : Bool :=
  match l with
  | c :: d :: _ => c = '✦' && isJsWS d
  | _ => false

/-- Pattern `/^✦\s+/m` tested against a whole (possibly multi-line) string: some
    line-start position holds `✦` followed by a whitespace character (which may
    be the very newline that ends the line). -/
def geminiStartAux (lineStart : Bool) : List Char → Bool
  | [] => false
  | c :: rest =>
    (lineStart && c = '✦' && optAny isJsWS rest.head?) || geminiStartAux (c = '\n') rest

/-- Model of `responsePatterns.geminiStart.test(stdout)` on a full capture. -/
def geminiStartS (s : String) : Bool := geminiStartAux true s.data

/-- Pattern `responsePatterns.boxBorder = /^[╭╰─┤├]/m` on a single line. -/
def boxBorderLine (l : List Char) : Bool :=
  match l with
  | c :: _ => c = '╭' || c = '╰' || c = '─' || c = '┤' || c = '├'
  | [] => false

/-- Pattern `responsePatterns.codeBlock = /^```/m` on a single line. -/
def codeBlockLine (l : List Char) : Bool := listStartsWith ("```").data l

/-- Pattern `responsePatterns.geminiPrompt = /gemini>/` (plain containment). -/
def geminiPromptL (l : List Char) : Bool := hasSub l ("gemini>").data

/-- Pattern `responsePatterns.promptReturn = /^Using \d+ MCP/m` on a single line. -/
def promptReturnLine (l : List Char) : Bool :=
  listStartsWith ("Using ").data l &&
  (let r := l.drop 6
   let ds := r.takeWhile Char.isDigit
   !ds.isEmpty && listStartsWith (" MCP").data (r.drop ds.length))

/-! ## `preprocessMessage` (src/src/server.ts, lines 68-87)

`fs.existsSync` and `path.resolve` are Node library calls; they are modelled as
abstract parameters `fsx : String → Bool` (filesystem existence) and
`res : String → String → String` (`path.resolve workingDir filename`).
`path.isAbsolute` is modelled concretely for POSIX: the path starts with `/`. -/

/-- POSIX `path.isAbsolute` on a token's characters. -/
def isAbsoluteL (tok : List Char) : Bool :=
  match tok with
  | c :: _ => c = '/'
  | [] => false

/-- The replacement callback of `message.replace(/@(\S+)/g, ...)`: keep an
    absolute token; otherwise resolve it against the working directory and
    substitute the absolute path only when the file exists. -/
def expandFileRef (fsx : String → Bool) (res : String → String → String)
    (wd : String) (tok : List Char) : List Char :=
  if isAbsoluteL tok then tok
  else
    let absolutePath := res wd ⟨tok⟩
    if fsx absolutePath then absolutePath.data else tok

/-- The scan of `message.replace(/@(\S+)/g, cb)`: at each `@` the regex engine
    takes the maximal run of non-whitespace characters as the token (no match
    when that run is empty) and continues after the match. -/
def preprocessGo (fsx : String → Bool) (res : String → String → String)
    (wd : String) : Nat → List Char → List Char
  | _, [] => []
  | 0, cs => cs
  | fuel + 1, c :: rest =>
    if c = '@' then
      if (rest.takeWhile (fun d => !isJsWS d)).isEmpty then
        c :: preprocessGo fsx res wd fuel rest
      else
        c :: (expandFileRef fsx res wd (rest.takeWhile (fun d => !isJsWS d)) ++
          preprocessGo fsx res wd fuel
            (rest.drop (rest.takeWhile (fun d => !isJsWS d)).length))
    else c :: preprocessGo fsx res wd fuel rest

/-- The whole-message scan; the fuel equals the input length and can never run
    out because each step consumes at least one character (`preprocessGo_fuel`
    below makes fuel irrelevance precise). -/
def preprocessAux (fsx : String → Bool) (res : String → String → String)
    (wd : String) (cs : List Char) : List Char :=
  preprocessGo fsx res wd cs.length cs

/-- Model of `preprocessMessage(message, workingDir)` (src/src/server.ts, lines 68-87). -/
def preprocessMessage (fsx : String → Bool) (res : String → String → String)
    (wd : String) (message : String) : String :=
  ⟨preprocessAux fsx res wd message.data⟩

/-- Predicate `tokensOK P cs`: every `@`-token the replace scan would find in `cs`
    satisfies `P` (used to state the "all tokens non-resolving / all tokens
    absolute" hypotheses of the claims). -/
def tokensGo (P : List Char → Bool) : Nat → List Char → Bool
  | _, [] => true
  | 0, _ => true
  | fuel + 1, c :: rest =>
    if c = '@' then
      if (rest.takeWhile (fun d => !isJsWS d)).isEmpty then tokensGo P fuel rest
      else P (rest.takeWhile (fun d => !isJsWS d)) &&
        tokensGo P fuel (rest.drop (rest.takeWhile (fun d => !isJsWS d)).length)
    else tokensGo P fuel rest

/-- Predicate `tokensOK P cs`, with fuel instantiated to the input length. -/
def tokensOK (P : List Char → Bool) (cs : List Char) : Bool :=
  tokensGo P cs.length cs

/-! ## `captureResponse` (src/src/server.ts, lines 128-225)

The polling loop is modelled as a step function over the loop's mutable state
and a run over a finite list of timed polls.  `startTime` is normalised to `0`,
so a poll's `Nat` component is both the `Date.now()` of the iteration and the
elapsed time.  A poll carrying `none` models `tmux capture-pane` throwing: the
`catch` logs and the loop simply continues with unchanged state.  The
`hasValidResponse` block of the source (lines 167-185) only produces console
logging and is omitted.  The source returns a bare string on every exit path;
the constructors of `CapResult` record which exit path produced it. -/

/-- The permission-UI check of the loop (src/src/server.ts, lines 210-214). -/
def permissionS (s : String) : Bool :=
  includesS s ("Do you want to proceed?") || includesS s ("Yes, allow once") ||
  includesS s ("Yes, allow always")

structure CapState where
  lastOutput : String
  stableCount : Nat
  hasSeenProcessing : Bool
  hasSeenGeminiResponse : Bool
  lastChangeTime : Nat
deriving DecidableEq, Repr

/-- The loop-local variables at entry (src/src/server.ts, lines 129-134),
    with `startTime = 0`. -/
def initCapState : CapState :=
  { lastOutput := "", stableCount := 0, hasSeenProcessing := false,
    hasSeenGeminiResponse := false, lastChangeTime := 0 }

inductive CapResult where
  | complete (out : String)
  | permissionPrompt (out : String)
  | timedOut (out : String)
deriving DecidableEq, Repr

inductive CapStep where
  | ret (r : CapResult)
  | cont (s : CapState)
deriving DecidableEq, Repr

/-- One iteration body of the polling loop on a successful capture `stdout`
    at time `now` (src/src/server.ts, lines 146-216). -/
def captureStep (now : Nat) (stdout : String) (s : CapState) : CapStep :=
  let hasSeenProcessing :=
    s.hasSeenProcessing || processingS stdout || searchingS stdout
  let lastChangeTime :=
    if processingS stdout || searchingS stdout then now else s.lastChangeTime
  let hasSeenGeminiResponse := s.hasSeenGeminiResponse || geminiStartS stdout
  if stdout ≠ s.lastOutput then
    -- output changed: reset the stability counter and remember the snapshot
    if permissionS stdout then CapStep.ret (CapResult.permissionPrompt stdout)
    else CapStep.cont
      { lastOutput := stdout, stableCount := 0, hasSeenProcessing,
        hasSeenGeminiResponse, lastChangeTime := now }
  else
    let stableCount := s.stableCount + 1
    let requiredStableCount := if hasSeenProcessing then 4 else 2
    if stableCount ≥ requiredStableCount ∧ now - lastChangeTime > 3000 ∧
       processingS stdout = false ∧ searchingS stdout = false ∧
       (hasSeenGeminiResponse = true ∨ hasSeenProcessing = true) then
      CapStep.ret (CapResult.complete stdout)
    else if permissionS stdout then CapStep.ret (CapResult.permissionPrompt stdout)
    else CapStep.cont
      { lastOutput := s.lastOutput, stableCount, hasSeenProcessing,
        hasSeenGeminiResponse, lastChangeTime }

/-- One loop iteration on a poll; `none` is a capture failure swallowed by the
    `catch` (src/src/server.ts, lines 217-219). -/
def capturePoll (p : Nat × Option String) (s : CapState) : CapStep :=
  match p.2 with
  | none => CapStep.cont s
  | some stdout => captureStep p.1 stdout s

/-- The whole polling loop over a finite list of timed polls: the guard
    `Date.now() - startTime < timeout` is checked before each poll, and an
    exhausted budget (or poll list) returns `lastOutput` as a timeout
    (src/src/server.ts, lines 136, 222-224). -/
def captureRun (timeout : Nat) (s : CapState) : List (Nat × Option String) → CapResult
  | [] => CapResult.timedOut s.lastOutput
  | p :: ps =>
    if p.1 < timeout then
      match capturePoll p s with
      | CapStep.ret r => r
      | CapStep.cont s' => captureRun timeout s' ps
    else CapResult.timedOut s.lastOutput

/-- Predicate `runsClean timeout s polls`: no in-budget poll makes the loop return early
    (neither the completion nor the permission branch fires). -/
def runsClean (timeout : Nat) (s : CapState) : List (Nat × Option String) → Bool
  | [] => true
  | p :: ps =>
    if p.1 < timeout then
      match capturePoll p s with
      | CapStep.ret _ => false
      | CapStep.cont s' => runsClean timeout s' ps
    else true

/-- The most recent successfully captured snapshot of a poll list. -/
def lastCaptured : List (Nat × Option String) → Option String
  | [] => none
  | p :: ps =>
    match lastCaptured ps with
    | some s => some s
    | none => p.2

/-! ## `extractGeminiResponse` (src/src/server.ts, lines 245-356) -/

/-- The per-line test of the first search loop (src/src/server.ts, lines
    250-255): the line contains the user message verbatim, or the message is
    longer than 20 characters and the line contains its first 20 characters. -/
def msgLineHit (msg l : List Char) : Bool :=
  hasSub l msg || (decide (msg.length > 20) && hasSub l (msg.take 20))

/-- The first search loop: lowest line index hit by `msgLineHit`. -/
def findUserMessageIndex (ls : List (List Char)) (msg : List Char) : Option Nat :=
  findFirstIdx (msgLineHit msg) ls

/-- The full reference-point search (src/src/server.ts, lines 247-281):
    the user-message loop, then a backward scan for a response-start pattern,
    then a backward scan for the `gemini>` prompt. -/
def extractRefIndex (ls : List (List Char)) (msg : List Char) : Option Nat :=
  match findUserMessageIndex ls msg with
  | some i => some i
  | none =>
    match findLastIdx
        (fun l => geminiStartLine l || processingL l || searchingL l) ls with
    | some i => some i
    | none => findLastIdx geminiPromptL ls

/-- The mutable locals of the extraction loop (src/src/server.ts, lines 289-293).
    The retained lines themselves are the loop's result rather than a field. -/
structure ExtState where
  found : Bool
  empties : Nat
  inCode : Bool
  inBox : Bool
deriving DecidableEq, Repr

def extInit : ExtState :=
  { found := false, empties := 0, inCode := false, inBox := false }

/-- The extraction loop over the candidate lines (src/src/server.ts, lines
    295-346); returns the retained `responseLines`, stopping (`break`) at a
    prompt/shell-mode line or after more than 3 consecutive blank lines outside
    a code fence or box. -/
def extractLoop (st : ExtState) : List (List Char) → List (List Char)
  | [] => []
  | line :: rest =>
    let inCode := if codeBlockLine line then !st.inCode else st.inCode
    let found0 := st.found || codeBlockLine line
    let inBox := if boxBorderLine line then !st.inBox else st.inBox
    let found1 := found0 || boxBorderLine line
    if !found1 && (processingL line || searchingL line || geminiStartLine line ||
        (line.all isJsWS && !inCode && !inBox)) then
      extractLoop { found := found1, empties := st.empties, inCode, inBox } rest
    else
      let fe : Bool × Nat :=
        if !line.all isJsWS || inCode || inBox then (true, 0)
        else if found1 then (found1, st.empties + 1) else (found1, st.empties)
      if !inCode && !inBox && (geminiPromptL line ||
          hasSub line ("shell mode enabled").data || jsTrimL line = ['!'] ||
          promptReturnLine line) then
        []
      else if !inCode && !inBox && fe.2 > 3 then
        []
      else
        (if fe.1 then [line] else []) ++
          extractLoop { found := fe.1, empties := fe.2, inCode, inBox } rest

/-- Model of `extractGeminiResponse(fullOutput, userMessage, debug)`
    (src/src/server.ts, lines 245-356). -/
def extractGeminiResponse (fullOutput userMessage : String) (debug : Bool) : String :=
  let ls := splitLinesL fullOutput.data
  let mi := extractRefIndex ls userMessage.data
  if mi.isNone && debug then ⟨jsTrimL fullOutput.data⟩
  else
    let start := match mi with | some i => i + 1 | none => 0
    ⟨jsTrimL (joinLinesL (extractLoop extInit (ls.drop start)))⟩

/-- Whether the last line of `s` (after a JS `split('\n')`) is whitespace-only. -/
def lastLineBlank (s : String) : Bool :=
  ((splitLinesL s.data).getLastD []).all isJsWS

/-! ## One-shot transport (src/unnamed/part_002)

`sendOneShot` spawns the external tool, pipes the message in, accumulates
`stdout`/`stderr` and settles its promise on the child's `close` (or `error`)
event.  The child's observable behaviour is abstracted into a record: the data
it will have written to each stream by the time it closes, the time and exit
code of its `close` event (`none` when it never closes), and an optional spawn
error.  The `gemini_send` handler races this promise against a
`setTimeout`-rejection after `timeout` ms (default 30000).  Nothing in
src/unnamed/part_002 ever calls `kill` on the child, so the model's
"adapter killed the child" output is the constant `false`. -/

structure OneShotBehavior where
  stdoutData : String
  stderrData : String
  exitEvent : Option (Nat × Int)
  spawnError : Option String
deriving DecidableEq, Repr

/-- The output cleaning on the success path (src/unnamed/part_002, lines 44-49):
    drop every line containing "Loaded cached credentials.", rejoin, trim. -/
def cleanedOneShot (output : String) : String :=
  ⟨jsTrimL (joinLinesL ((splitLinesL output.data).filter
    (fun l => !hasSub l ("Loaded cached credentials.").data)))⟩

inductive OneShotResult where
  | pending
  | resolved (s : String)
  | rejected (e : String)
deriving DecidableEq, Repr

/-- How the `sendOneShot` promise settles (src/unnamed/part_002, lines 19-59):
    `pending` when the child never closes and no spawn error fires. -/
def sendOneShotResult (beh : OneShotBehavior) : OneShotResult :=
  match beh.spawnError with
  | some e => OneShotResult.rejected e
  | none =>
    match beh.exitEvent with
    | none => OneShotResult.pending
    | some (_, code) =>
      if code ≠ 0 ∧ beh.stderrData ≠ "" then
        OneShotResult.rejected (("Gemini process failed: ") ++ beh.stderrData)
      else OneShotResult.resolved (cleanedOneShot beh.stdoutData)

/-- Whether the child's `close` event fires strictly before the handler's
    `setTimeout(timeout)` rejection. -/
def closesBefore (timeout : Nat) (beh : OneShotBehavior) : Bool :=
  match beh.exitEvent with
  | some (t, _) => decide (t < timeout)
  | none => false

/-- The one-shot `gemini_send` handler (src/unnamed/part_002, lines 78-111):
    text payload of the tool result, paired with whether the adapter ever
    terminated the child process (it never does).  The `Promise.race` resolves
    with `sendOneShot`'s settlement when the child closes before `timeout` ms,
    and otherwise rejects with `Response timeout`; the `catch` turns any
    rejection into an `Error: ...` text. -/
def geminiSendOutcome (timeout : Nat) (beh : OneShotBehavior) : String × Bool :=
  let text :=
    match beh.spawnError with
    | some e => ("Error: ") ++ e
    | none =>
      if closesBefore timeout beh then
        match sendOneShotResult beh with
        | OneShotResult.resolved s =>
          if s = "" then ("No response received from Gemini.") else s
        | OneShotResult.rejected e => ("Error: ") ++ e
        | OneShotResult.pending => ("Error: Response timeout")
      else ("Error: Response timeout")
  (text, false)

/-! ## Concrete instances used by witnesses and counterexamples -/

def c1Polls : List (Nat × Option String) :=
  [(0, some ("✦ hi")), (1000, some ("✦ hi")), (2000, some ("✦ hi")),
   (3000, some ("✦ hi")), (4000, some ("✦ hi"))]

def c1State : CapState :=
  { lastOutput := ("✦ hi"), stableCount := 3, hasSeenProcessing := false,
    hasSeenGeminiResponse := true, lastChangeTime := 0 }

def c5Polls : List (Nat × Option String) :=
  [(0, some ("a")), (1000, none), (2000, some ("b")), (3000, some ("c"))]

def fsW : String → Bool := fun p => p == ("/abs/path/package.json")

def resW : String → String → String := fun wd f => wd ++ ("/") ++ f

def c6Transcript : String := "hi\nA\nhi\nB"

def c7Beh : OneShotBehavior :=
  { stdoutData := ("partial output"), stderrData := (""), exitEvent := none,
    spawnError := none }

def c8Beh : OneShotBehavior :=
  { stdoutData := ("Loaded cached credentials.\nHello\n"), stderrData := (""),
    exitEvent := some (5000, 0), spawnError := none }


/-! ## Helper lemmas -/

theorem isJsWS_cases {c : Char} (h : isJsWS c = true) :
    c = ' ' ∨ c = '\t' ∨ c = '\n' ∨ c = '\r' ∨ c = Char.ofNat 11 ∨ c = Char.ofNat 12 ∨
    c = Char.ofNat 160 ∨ c = Char.ofNat 65279 := by
  simp only [isJsWS, Bool.or_eq_true, decide_eq_true_eq] at h
  tauto

theorem listStartsWith_ws_false {pat l : List Char} {p0 : Char}
    (hl : l.all isJsWS = true) (hpat : pat.head? = some p0) (hp0 : isJsWS p0 = false) :
    listStartsWith pat l = false := by
  cases pat with
  | nil => simp at hpat
  | cons a pat =>
    cases l with
    | nil => rfl
    | cons c l =>
      have hap : a = p0 := by simpa using hpat
      have hc : isJsWS c = true := by
        simp only [List.all_cons, Bool.and_eq_true] at hl
        exact hl.1
      have hne : a ≠ c := by
        rintro rfl
        rw [hap] at hc
        rw [hp0] at hc
        cases hc
      simp [listStartsWith, hne]

theorem hasSub_ws_false {l pat : List Char} {p0 : Char}
    (hl : l.all isJsWS = true) (hpat : pat.head? = some p0) (hp0 : isJsWS p0 = false) :
    hasSub l pat = false := by
  induction l with
  | nil =>
    cases pat with
    | nil => simp at hpat
    | cons a pat => simp [hasSub]
  | cons c l ih =>
    have hl2 : l.all isJsWS = true := by
      simp only [List.all_cons, Bool.and_eq_true] at hl
      exact hl.2
    simp [hasSub, listStartsWith_ws_false hl hpat hp0, ih hl2]

theorem ciHasSub_ws_false {l : List Char} {p0 : Char} (pat : String)
    (hl : l.all isJsWS = true) (hpat : (pat.data.map lcChar).head? = some p0)
    (hp0 : isJsWS p0 = false) : ciHasSub l pat = false := by
  have lcid : l.map lcChar = l := by
    induction l with
    | nil => rfl
    | cons c l ih =>
      simp only [List.all_cons, Bool.and_eq_true] at hl
      have : lcChar c = c := by
        rcases isJsWS_cases hl.1 with rfl | rfl | rfl | rfl | rfl | rfl | rfl | rfl <;> rfl
      simp [this, ih hl.2]
  unfold ciHasSub
  rw [lcid]
  exact hasSub_ws_false hl hpat hp0

theorem blank_codeBlock {l : List Char} (h : l.all isJsWS = true) : codeBlockLine l = false :=
  listStartsWith_ws_false h rfl (by decide)

theorem blank_geminiPrompt {l : List Char} (h : l.all isJsWS = true) : geminiPromptL l = false :=
  hasSub_ws_false h rfl (by decide)

theorem blank_shellMode {l : List Char} (h : l.all isJsWS = true) :
    hasSub l ("shell mode enabled").data = false :=
  hasSub_ws_false h rfl (by decide)

theorem blank_promptReturn {l : List Char} (h : l.all isJsWS = true) :
    promptReturnLine l = false := by
  have h1 := @listStartsWith_ws_false (("Using ").data) l 'U' h rfl (by decide)
  simp [promptReturnLine, h1]

theorem blank_boxBorder {l : List Char} (h : l.all isJsWS = true) : boxBorderLine l = false := by
  cases l with
  | nil => rfl
  | cons c l =>
    have hc : isJsWS c = true := by
      simp only [List.all_cons, Bool.and_eq_true] at h
      exact h.1
    rcases isJsWS_cases hc with rfl | rfl | rfl | rfl | rfl | rfl | rfl | rfl <;> rfl

theorem blank_processing {l : List Char} (h : l.all isJsWS = true) : processingL l = false := by
  rw [processingL, List.any_eq_false]
  intro c hc
  have hw := List.all_eq_true.mp h c hc
  rcases isJsWS_cases hw with rfl | rfl | rfl | rfl | rfl | rfl | rfl | rfl <;> decide

theorem blank_searching {l : List Char} (h : l.all isJsWS = true) : searchingL l = false := by
  rw [searchingL]
  rw [ciHasSub_ws_false ("Searching") h rfl (by decide)]
  rw [ciHasSub_ws_false ("Translating") h rfl (by decide)]
  rw [ciHasSub_ws_false ("GoogleSearch") h rfl (by decide)]
  rw [ciHasSub_ws_false ("Processing") h rfl (by decide)]
  rw [ciHasSub_ws_false ("Thinking") h rfl (by decide)]
  rfl

theorem blank_geminiStart {l : List Char} (h : l.all isJsWS = true) :
    geminiStartLine l = false := by
  match l with
  | [] => rfl
  | [c] => rfl
  | c :: d :: t =>
    have hc : isJsWS c = true := by
      simp only [List.all_cons, Bool.and_eq_true] at h
      exact h.1
    have hne : c ≠ '✦' := by
      rintro rfl
      cases hc
    simp [geminiStartLine, hne]

theorem blank_jsTrimL {l : List Char} (h : l.all isJsWS = true) : jsTrimL l = [] := by
  have h1 : l.dropWhile isJsWS = [] := List.dropWhile_eq_nil_iff.mpr
    (fun c hc => List.all_eq_true.mp h c hc)
  simp [jsTrimL, h1]

theorem dropWhile_dropWhile (p : Char → Bool) (l : List Char) :
    (l.dropWhile p).dropWhile p = l.dropWhile p := by
  induction l with
  | nil => rfl
  | cons a l ih =>
    by_cases h : p a = true
    · simp [List.dropWhile_cons, h, ih]
    · simp [List.dropWhile_cons, h]

theorem dropWhile_head_false (p : Char → Bool) (l : List Char) {a : Char}
    (h : (l.dropWhile p).head? = some a) : p a = false := by
  induction l with
  | nil => simp [List.dropWhile] at h
  | cons b l ih =>
    rw [List.dropWhile_cons] at h
    by_cases hb : p b = true
    · rw [if_pos hb] at h
      exact ih h
    · rw [if_neg hb] at h
      simp only [List.head?_cons, Option.some.injEq] at h
      subst h
      simpa using hb

theorem dropWhile_of_head_false (p : Char → Bool) (l : List Char)
    (h : optAny p l.head? = false) : l.dropWhile p = l := by
  cases l with
  | nil => rfl
  | cons a l =>
    simp only [List.head?_cons, optAny] at h
    simp [List.dropWhile_cons, h]

theorem jsTrimL_idem (cs : List Char) : jsTrimL (jsTrimL cs) = jsTrimL cs := by
  unfold jsTrimL
  set X := cs.dropWhile isJsWS with hX
  set Y := X.reverse.dropWhile isJsWS with hY
  have hZdrop : Y.reverse.dropWhile isJsWS = Y.reverse := by
    apply dropWhile_of_head_false
    cases hYr : Y.reverse.head? with
    | none => rfl
    | some a =>
      have hpre : Y.reverse <+: X := by
        have hsuf : Y <:+ X.reverse := by
          rw [hY]
          exact List.dropWhile_suffix _
        have h2 := (@List.reverse_prefix _ Y X.reverse).mpr hsuf
        rwa [List.reverse_reverse] at h2
      obtain ⟨t, ht⟩ := hpre
      cases hYrev : Y.reverse with
      | nil => rw [hYrev] at hYr; simp at hYr
      | cons a' rest =>
        rw [hYrev] at hYr ht
        simp only [List.head?_cons, Option.some.injEq] at hYr
        subst hYr
        have hXhead : X.head? = some a' := by
          rw [← ht]
          rfl
        rw [hX] at hXhead
        have hws := dropWhile_head_false isJsWS cs hXhead
        simp [optAny, hws]
  rw [hZdrop, List.reverse_reverse, hY, dropWhile_dropWhile]

theorem jsTrimL_getLast_not_ws (cs : List Char) {a : Char}
    (h : (jsTrimL cs).getLast? = some a) : isJsWS a = false := by
  unfold jsTrimL at h
  rw [List.getLast?_reverse] at h
  exact dropWhile_head_false _ _ h

theorem splitLinesL_ne_nil (cs : List Char) : splitLinesL cs ≠ [] := by
  cases cs with
  | nil => simp [splitLinesL]
  | cons c rest =>
    simp only [splitLinesL]
    split
    · simp
    · split <;> simp

theorem splitLinesL_cons (c : Char) (rest : List Char) :
    splitLinesL (c :: rest) =
      if c = '\n' then [] :: splitLinesL rest
      else
        match splitLinesL rest with
        | l :: ls => (c :: l) :: ls
        | [] => [[c]] := rfl

theorem splitLines_getLast_mem (cs : List Char) {c : Char}
    (h : cs.getLast? = some c) (hc : c ≠ '\n') :
    ∃ l, (splitLinesL cs).getLast? = some l ∧ c ∈ l := by
  induction cs with
  | nil => simp at h
  | cons a rest ih =>
    cases rest with
    | nil =>
      have hac : a = c := by simpa using h
      refine ⟨[a], ?_, by simp [hac]⟩
      have han : a ≠ '\n' := by rw [hac]; exact hc
      simp [splitLinesL, han]
    | cons b rest' =>
      have h' : (b :: rest').getLast? = some c := by
        rwa [List.getLast?_cons_cons] at h
      obtain ⟨l, hl, hcl⟩ := ih h'
      obtain ⟨m, ms, hm⟩ : ∃ m ms, splitLinesL (b :: rest') = m :: ms := by
        cases hsp : splitLinesL (b :: rest') with
        | nil => exact absurd hsp (splitLinesL_ne_nil _)
        | cons m ms => exact ⟨m, ms, rfl⟩
      by_cases ha : a = '\n'
      · subst ha
        refine ⟨l, ?_, hcl⟩
        have hstep : splitLinesL ('\n' :: b :: rest') = [] :: splitLinesL (b :: rest') := rfl
        rw [hstep, hm, List.getLast?_cons_cons]
        rw [hm] at hl
        exact hl
      · rw [hm] at hl
        cases ms with
        | nil =>
          simp only [List.getLast?_singleton, Option.some.injEq] at hl
          refine ⟨a :: m, ?_, ?_⟩
          · rw [splitLinesL_cons, if_neg ha, hm]
            rfl
          · rw [← hl] at hcl
            exact List.mem_cons_of_mem a hcl
        | cons m2 ms' =>
          refine ⟨l, ?_, hcl⟩
          rw [splitLinesL_cons, if_neg ha, hm]
          show ((a :: m) :: m2 :: ms').getLast? = some l
          rw [List.getLast?_cons_cons]
          rwa [List.getLast?_cons_cons] at hl

theorem mk_trim_fix (X : List Char) : jsTrim ⟨jsTrimL X⟩ = (⟨jsTrimL X⟩ : String) := by
  show (⟨jsTrimL (jsTrimL X)⟩ : String) = ⟨jsTrimL X⟩
  rw [jsTrimL_idem]

theorem trimmed_mk_no_trailing_blank (X : List Char) :
    ((⟨jsTrimL X⟩ : String).data.isEmpty || !lastLineBlank ⟨jsTrimL X⟩) = true := by
  cases hne : jsTrimL X with
  | nil => simp [lastLineBlank]
  | cons c t =>
    obtain ⟨a, ha⟩ : ∃ a, (c :: t).getLast? = some a :=
      ⟨_, List.getLast?_eq_getLast _ (by simp)⟩
    have hws : isJsWS a = false := jsTrimL_getLast_not_ws X (by rw [hne]; exact ha)
    have hane : a ≠ '\n' := by
      intro heq
      rw [heq] at hws
      cases hws
    obtain ⟨l, hl, hcl⟩ := splitLines_getLast_mem (c :: t) ha hane
    obtain ⟨m, ms, hsp⟩ : ∃ m ms, splitLinesL (c :: t) = m :: ms := by
      cases hspl : splitLinesL (c :: t) with
      | nil => exact absurd hspl (splitLinesL_ne_nil _)
      | cons m ms => exact ⟨m, ms, rfl⟩
    have hgd : (splitLinesL (c :: t)).getLastD [] = l := by
      rw [hsp, List.getLastD_cons, List.getLastD_eq_getLast?]
      rw [hsp, List.getLast?_cons] at hl
      exact Option.some.inj hl
    have hall : l.all isJsWS = false := by
      cases hallc : l.all isJsWS with
      | false => rfl
      | true =>
        have := List.all_eq_true.mp hallc _ hcl
        rw [this] at hws
        cases hws
    have hlb : lastLineBlank ⟨c :: t⟩ = false := by
      unfold lastLineBlank
      rw [show (String.mk (c :: t)).data = c :: t from rfl, hgd, hall]
    simp [hlb]

theorem extract_is_trim (T M : String) (dbg : Bool) :
    ∃ X, extractGeminiResponse T M dbg = (⟨jsTrimL X⟩ : String) := by
  unfold extractGeminiResponse
  by_cases h : (extractRefIndex (splitLinesL T.data) M.data).isNone && dbg
  · exact ⟨T.data, by simp [h]⟩
  · refine ⟨joinLinesL (extractLoop extInit ((splitLinesL T.data).drop
      (match extractRefIndex (splitLinesL T.data) M.data with
       | some i => i + 1
       | none => 0))), ?_⟩
    simp [h]

/-- C2: for every transcript `T`, outbound message `M` and debug flag, the
    Response Extractor is a total Lean function (so it never raises), and its
    result is its own JS-trim (no leading or trailing whitespace, hence no
    trailing blank lines); when non-empty, its last line is not whitespace-only.
    At worst it is the empty string or a trimmed form of the raw transcript. -/
theorem extractGeminiResponse_total_trimmed (T M : String) (dbg : Bool) :
    jsTrim (extractGeminiResponse T M dbg) = extractGeminiResponse T M dbg ∧
    ((extractGeminiResponse T M dbg).data.isEmpty ||
      !lastLineBlank (extractGeminiResponse T M dbg)) = true := by
  obtain ⟨X, hX⟩ := extract_is_trim T M dbg
  rw [hX]
  exact ⟨mk_trim_fix X, trimmed_mk_no_trailing_blank X⟩

/-- C1 counterexample: a snapshot sequence that never contains any
    processing-indicator glyph or status word (it only ever shows the
    reply-start marker `✦ `) still makes `captureResponse` report complete —
    refuting both the "processing seen is required" conjunct and the claim's
    "never reports complete without a processing indicator" consequence. -/
theorem captureRun_complete_without_processing :
    captureRun 10000 initCapState c1Polls = CapResult.complete ("✦ hi") ∧
    processingS ("✦ hi") = false ∧ searchingS ("✦ hi") = false := by
  refine ⟨by decide, by decide, by decide⟩

/-- C1 (amended): the Completion Detector reports complete at a poll only when,
    at the moment of the check: the snapshot is byte-identical to the previous
    one; the stable counter (counting this poll) has reached 4 when a
    processing indicator was previously seen and 2 otherwise (never the
    spec's canonical 3); more than 3000 ms have passed since the last observed
    change; the latest snapshot contains no live processing-indicator glyph or
    status word; and either a processing indicator or a reply-start marker
    (`✦ ` at a line start) has been observed — mere processing-seen is NOT
    required. -/
theorem captureStep_complete_conditions (s : CapState) (now : Nat) (stdout out : String)
    (h : captureStep now stdout s = CapStep.ret (CapResult.complete out)) :
    out = stdout ∧ stdout = s.lastOutput ∧
    s.stableCount + 1 ≥ (if s.hasSeenProcessing then 4 else 2) ∧
    now - s.lastChangeTime > 3000 ∧
    processingS stdout = false ∧ searchingS stdout = false ∧
    (s.hasSeenGeminiResponse = true ∨ geminiStartS stdout = true ∨
      s.hasSeenProcessing = true) := by
  simp only [captureStep] at h
  by_cases hprocf : processingS stdout = true
  · split_ifs at h <;> simp_all
  · by_cases hsearchf : searchingS stdout = true
    · split_ifs at h <;> simp_all
    · simp only [Bool.not_eq_true] at hprocf hsearchf
      simp only [hprocf, hsearchf, Bool.or_false, eq_self_iff_true, true_and, and_true,
        Bool.false_eq_true, if_false] at h
      split_ifs at h with hchg hperm hsp hcond hperm2 hcond2 hperm3 <;> try simp at h
      · push_neg at hchg
        obtain ⟨h1, h2, h5⟩ := hcond
        refine ⟨h.symm, hchg, ?_, h2, hprocf, hsearchf, ?_⟩
        · rw [if_pos hsp]
          exact h1
        · simp only [Bool.or_eq_true] at h5
          tauto
      · push_neg at hchg
        obtain ⟨h1, h2, h5⟩ := hcond2
        refine ⟨h.symm, hchg, ?_, h2, hprocf, hsearchf, ?_⟩
        · rw [if_neg hsp]
          exact h1
        · simp only [Bool.or_eq_true] at h5
          tauto

theorem captureStep_complete_conditions_witness :
    captureStep 4000 ("✦ hi") c1State = CapStep.ret (CapResult.complete ("✦ hi")) ∧
    (("✦ hi") = ("✦ hi") ∧ ("✦ hi") = c1State.lastOutput ∧
     c1State.stableCount + 1 ≥ (if c1State.hasSeenProcessing then 4 else 2) ∧
     4000 - c1State.lastChangeTime > 3000 ∧
     processingS ("✦ hi") = false ∧ searchingS ("✦ hi") = false ∧
     (c1State.hasSeenGeminiResponse = true ∨ geminiStartS ("✦ hi") = true ∨
       c1State.hasSeenProcessing = true)) :=
  ⟨by decide, captureStep_complete_conditions c1State 4000 ("✦ hi") ("✦ hi") (by decide)⟩

/-- C3: a snapshot containing the literal marker "Do you want to proceed?"
    makes the detector return the permission-prompt result for that snapshot
    immediately, whatever the stable counter and flags are, and whatever
    completion conditions would otherwise hold.  Stated as: (1) from any state
    whose previous snapshot is marker-free (an invariant of every run, by (2)
    and (3)), a marker-carrying capture returns the permission result at that
    very poll; (2) every continuing step preserves marker-freeness of the
    remembered snapshot; (3) the initial state is marker-free. -/
theorem captureStep_permission_priority :
    (∀ (s : CapState) (now : Nat) (stdout : String),
      permissionS s.lastOutput = false →
      includesS stdout ("Do you want to proceed?") = true →
      captureStep now stdout s = CapStep.ret (CapResult.permissionPrompt stdout)) ∧
    (∀ (s : CapState) (now : Nat) (stdout : String) (s' : CapState),
      permissionS s.lastOutput = false →
      captureStep now stdout s = CapStep.cont s' →
      permissionS s'.lastOutput = false) ∧
    permissionS initCapState.lastOutput = false := by
  refine ⟨?_, ?_, by decide⟩
  · intro s now stdout hinv hmk
    have hperm : permissionS stdout = true := by
      unfold permissionS
      rw [hmk]
      rfl
    have hne : stdout ≠ s.lastOutput := by
      intro heq
      rw [heq] at hmk
      unfold permissionS at hinv
      rw [hmk] at hinv
      simp at hinv
    simp [captureStep, hne, hperm]
  · intro s now stdout s' hinv hstep
    simp only [captureStep] at hstep
    split_ifs at hstep
    all_goals try (injection hstep with hstep; subst hstep)
    all_goals simp_all

theorem captureStep_permission_priority_witness :
    permissionS initCapState.lastOutput = false ∧
    includesS ("Do you want to proceed?") ("Do you want to proceed?") = true ∧
    captureStep 0 ("Do you want to proceed?") initCapState =
      CapStep.ret (CapResult.permissionPrompt ("Do you want to proceed?")) :=
  ⟨by decide, by decide,
    captureStep_permission_priority.1 initCapState 0 ("Do you want to proceed?")
      (by decide) (by decide)⟩

theorem capturePoll_cont_lastOutput (p : Nat × Option String) (s s' : CapState)
    (h : capturePoll p s = CapStep.cont s') :
    s'.lastOutput = p.2.getD s.lastOutput := by
  obtain ⟨t, o⟩ := p
  cases o with
  | none =>
    simp only [capturePoll] at h
    cases h
    rfl
  | some stdout =>
    simp only [capturePoll, captureStep] at h
    split_ifs at h
    all_goals try (injection h with h; subst h)
    all_goals simp_all

theorem lastCaptured_cons_getD (p : Nat × Option String) (ps : List (Nat × Option String))
    (d : String) :
    (lastCaptured (p :: ps)).getD d = (lastCaptured ps).getD (p.2.getD d) := by
  cases hlc : lastCaptured ps with
  | none => cases hp : p.2 <;> simp [lastCaptured, hlc, hp]
  | some s => simp [lastCaptured, hlc]

theorem captureRun_clean_timedOut (timeout : Nat) :
    ∀ (polls : List (Nat × Option String)) (s : CapState),
      runsClean timeout s polls = true →
      captureRun timeout s polls =
        CapResult.timedOut
          ((lastCaptured (polls.takeWhile (fun p => decide (p.1 < timeout)))).getD
            s.lastOutput) := by
  intro polls
  induction polls with
  | nil =>
    intro s _
    simp [captureRun, lastCaptured]
  | cons p ps ih =>
    intro s h
    by_cases hg : p.1 < timeout
    · simp only [runsClean, if_pos hg] at h
      simp only [captureRun, if_pos hg]
      cases hcp : capturePoll p s with
      | ret r =>
        rw [hcp] at h
        cases h
      | cont s' =>
        rw [hcp] at h
        have hlast := capturePoll_cont_lastOutput p s s' hcp
        rw [List.takeWhile_cons, if_pos (decide_eq_true hg)]
        rw [lastCaptured_cons_getD, ← hlast]
        exact ih s' h
    · simp only [captureRun, if_neg hg]
      rw [List.takeWhile_cons, if_neg (by simp [hg])]
      simp [lastCaptured]

/-- C5: if the time budget is exhausted before the completion or
    permission-prompt branch ever fires, the detector reports a timeout and
    returns the last successfully captured snapshot (the empty string when no
    capture ever succeeded), and a transport-level capture failure inside the
    loop (a `none` poll, the `catch` around `tmux capture-pane`) leaves the
    state untouched and polling simply continues.  Totality of `captureRun`
    models "never raises". -/
theorem captureRun_timeout_behavior :
    (∀ (s : CapState) (t : Nat), capturePoll (t, none) s = CapStep.cont s) ∧
    (∀ (timeout : Nat) (polls : List (Nat × Option String)),
      runsClean timeout initCapState polls = true →
      captureRun timeout initCapState polls =
        CapResult.timedOut
          ((lastCaptured (polls.takeWhile (fun p => decide (p.1 < timeout)))).getD (""))) := by
  refine ⟨fun s t => rfl, fun timeout polls h => ?_⟩
  simpa using captureRun_clean_timedOut timeout polls initCapState h

theorem captureRun_timeout_behavior_witness :
    runsClean 2500 initCapState c5Polls = true ∧
    captureRun 2500 initCapState c5Polls = CapResult.timedOut ("b") := by
  refine ⟨by decide, ?_⟩
  have h := captureRun_timeout_behavior.2 2500 c5Polls (by decide)
  rw [h]
  decide

theorem stringEqOfData {a b : String} (h : a.data = b.data) : a = b := by
  cases a
  cases b
  exact congrArg String.mk h

theorem preprocessAux_nil (fsx : String → Bool) (res : String → String → String)
    (wd : String) : preprocessAux fsx res wd [] = [] := rfl

theorem preprocessGo_fuel (fsx : String → Bool) (res : String → String → String)
    (wd : String) :
    ∀ (f1 f2 : Nat) (cs : List Char), cs.length ≤ f1 → cs.length ≤ f2 →
      preprocessGo fsx res wd f1 cs = preprocessGo fsx res wd f2 cs := by
  intro f1
  induction f1 with
  | zero =>
    intro f2 cs h1 _
    cases cs with
    | nil => cases f2 <;> rfl
    | cons c rest => simp at h1
  | succ g1 ih =>
    intro f2 cs h1 h2
    cases cs with
    | nil => cases f2 <;> rfl
    | cons c rest =>
      cases f2 with
      | zero => simp at h2
      | succ g2 =>
        simp only [List.length_cons, Nat.add_le_add_iff_right] at h1 h2
        simp only [preprocessGo]
        have hrest : preprocessGo fsx res wd g1 rest = preprocessGo fsx res wd g2 rest :=
          ih g2 rest h1 h2
        have hdrop : preprocessGo fsx res wd g1
              (rest.drop (rest.takeWhile (fun d => !isJsWS d)).length) =
            preprocessGo fsx res wd g2
              (rest.drop (rest.takeWhile (fun d => !isJsWS d)).length) := by
          apply ih
          · rw [List.length_drop]; omega
          · rw [List.length_drop]; omega
        rw [hrest, hdrop]

theorem tokensGo_fuel (P : List Char → Bool) :
    ∀ (f1 f2 : Nat) (cs : List Char), cs.length ≤ f1 → cs.length ≤ f2 →
      tokensGo P f1 cs = tokensGo P f2 cs := by
  intro f1
  induction f1 with
  | zero =>
    intro f2 cs h1 _
    cases cs with
    | nil => cases f2 <;> rfl
    | cons c rest => simp at h1
  | succ g1 ih =>
    intro f2 cs h1 h2
    cases cs with
    | nil => cases f2 <;> rfl
    | cons c rest =>
      cases f2 with
      | zero => simp at h2
      | succ g2 =>
        simp only [List.length_cons, Nat.add_le_add_iff_right] at h1 h2
        simp only [tokensGo]
        have hrest : tokensGo P g1 rest = tokensGo P g2 rest := ih g2 rest h1 h2
        have hdrop : tokensGo P g1
              (rest.drop (rest.takeWhile (fun d => !isJsWS d)).length) =
            tokensGo P g2
              (rest.drop (rest.takeWhile (fun d => !isJsWS d)).length) := by
          apply ih
          · rw [List.length_drop]; omega
          · rw [List.length_drop]; omega
        rw [hrest, hdrop]

theorem data_append (a b : String) : (a ++ b).data = a.data ++ b.data := rfl

theorem preprocessAux_cons (fsx : String → Bool) (res : String → String → String)
    (wd : String) (c : Char) (rest : List Char) :
    preprocessAux fsx res wd (c :: rest) =
      if c = '@' then
        (if (rest.takeWhile (fun d => !isJsWS d)).isEmpty then
          c :: preprocessAux fsx res wd rest
         else
          c :: (expandFileRef fsx res wd (rest.takeWhile (fun d => !isJsWS d)) ++
            preprocessAux fsx res wd
              (rest.drop (rest.takeWhile (fun d => !isJsWS d)).length)))
      else c :: preprocessAux fsx res wd rest := by
  show preprocessGo fsx res wd (rest.length + 1) (c :: rest) = _
  simp only [preprocessGo]
  have hdrop : preprocessGo fsx res wd rest.length
        (rest.drop (rest.takeWhile (fun d => !isJsWS d)).length) =
      preprocessAux fsx res wd
        (rest.drop (rest.takeWhile (fun d => !isJsWS d)).length) := by
    apply preprocessGo_fuel
    · rw [List.length_drop]; omega
    · rw [List.length_drop]
  rw [hdrop]
  rfl

theorem tokensOK_cons (P : List Char → Bool) (c : Char) (rest : List Char) :
    tokensOK P (c :: rest) =
      if c = '@' then
        (if (rest.takeWhile (fun d => !isJsWS d)).isEmpty then tokensOK P rest
         else P (rest.takeWhile (fun d => !isJsWS d)) &&
           tokensOK P (rest.drop (rest.takeWhile (fun d => !isJsWS d)).length))
      else tokensOK P rest := by
  show tokensGo P (rest.length + 1) (c :: rest) = _
  simp only [tokensGo]
  have hdrop : tokensGo P rest.length
        (rest.drop (rest.takeWhile (fun d => !isJsWS d)).length) =
      tokensOK P (rest.drop (rest.takeWhile (fun d => !isJsWS d)).length) := by
    apply tokensGo_fuel
    · rw [List.length_drop]; omega
    · rw [List.length_drop]
  rw [hdrop]
  rfl

theorem preprocessAux_append_no_at (fsx : String → Bool) (res : String → String → String)
    (wd : String) (cs ds : List Char) (h : cs.all (fun c => !(c = '@')) = true) :
    preprocessAux fsx res wd (cs ++ ds) = cs ++ preprocessAux fsx res wd ds := by
  induction cs with
  | nil => rfl
  | cons c cs ih =>
    simp only [List.all_cons, Bool.and_eq_true] at h
    have hc : ¬(c = '@') := by simpa using h.1
    rw [List.cons_append, preprocessAux_cons, if_neg hc, ih h.2, List.cons_append]

theorem takeWhile_token (tok ds : List Char) (h1 : tok.all (fun d => !isJsWS d) = true)
    (h2 : optAny (fun d => !isJsWS d) ds.head? = false) :
    (tok ++ ds).takeWhile (fun d => !isJsWS d) = tok := by
  induction tok with
  | nil =>
    cases ds with
    | nil => rfl
    | cons d ds' =>
      simp only [List.head?_cons, optAny] at h2
      simp [List.takeWhile_cons, h2]
  | cons t tok ih =>
    simp only [List.all_cons, Bool.and_eq_true] at h1
    simp [List.takeWhile_cons, h1.1, ih h1.2]

theorem preprocessAux_at_token (fsx : String → Bool) (res : String → String → String)
    (wd : String) (tok ds : List Char) (hne : tok ≠ [])
    (h1 : tok.all (fun d => !isJsWS d) = true)
    (h2 : optAny (fun d => !isJsWS d) ds.head? = false) :
    preprocessAux fsx res wd ('@' :: (tok ++ ds)) =
      '@' :: (expandFileRef fsx res wd tok ++ preprocessAux fsx res wd ds) := by
  have htw := takeWhile_token tok ds h1 h2
  have hemp : tok.isEmpty = false := by
    cases tok with
    | nil => exact absurd rfl hne
    | cons t tok => rfl
  rw [preprocessAux_cons, if_pos rfl, htw, hemp]
  simp only [Bool.false_eq_true, if_false]
  rw [List.drop_left]

theorem preprocessAux_decompose (fsx : String → Bool) (res : String → String → String)
    (wd : String) (pre tok post : List Char)
    (hpre : pre.all (fun c => !(c = '@')) = true) (hne : tok ≠ [])
    (htok : tok.all (fun d => !isJsWS d) = true)
    (hpost : optAny (fun d => !isJsWS d) post.head? = false) :
    preprocessAux fsx res wd (pre ++ '@' :: (tok ++ post)) =
      pre ++ '@' :: (expandFileRef fsx res wd tok ++ preprocessAux fsx res wd post) := by
  rw [preprocessAux_append_no_at fsx res wd pre _ hpre,
    preprocessAux_at_token fsx res wd tok post hne htok hpost]

theorem dropLen_takeWhile (q : Char → Bool) (l : List Char) :
    l.drop (l.takeWhile q).length = l.dropWhile q := by
  induction l with
  | nil => rfl
  | cons a l ih =>
    by_cases h : q a = true
    · simp [List.takeWhile_cons, List.dropWhile_cons, h, ih]
    · simp [List.takeWhile_cons, List.dropWhile_cons, h]

theorem preprocessAux_tokensOK (fsx : String → Bool) (res : String → String → String)
    (wd : String) (P : List Char → Bool)
    (hP : ∀ tok, P tok = true → expandFileRef fsx res wd tok = tok) :
    ∀ (n : Nat) (cs : List Char), cs.length ≤ n → tokensOK P cs = true →
      preprocessAux fsx res wd cs = cs := by
  intro n
  induction n with
  | zero =>
    intro cs hlen _
    cases cs with
    | nil => exact preprocessAux_nil fsx res wd
    | cons c rest => simp at hlen
  | succ n ih =>
    intro cs hlen htok
    cases cs with
    | nil => exact preprocessAux_nil fsx res wd
    | cons c rest =>
      simp only [List.length_cons, Nat.add_le_add_iff_right] at hlen
      by_cases hc : c = '@'
      · subst hc
        rw [preprocessAux_cons, if_pos rfl]
        rw [tokensOK_cons, if_pos rfl] at htok
        by_cases hemp : (rest.takeWhile (fun d => !isJsWS d)).isEmpty = true
        · rw [if_pos hemp]
          rw [if_pos hemp] at htok
          rw [ih rest hlen htok]
        · rw [if_neg hemp]
          rw [if_neg hemp] at htok
          simp only [Bool.and_eq_true] at htok
          rw [hP _ htok.1]
          have hdroplen : (rest.drop (rest.takeWhile (fun d => !isJsWS d)).length).length ≤ n := by
            rw [List.length_drop]
            omega
          rw [ih _ hdroplen htok.2]
          rw [dropLen_takeWhile, List.takeWhile_append_dropWhile]
      · rw [preprocessAux_cons, if_neg hc]
        rw [tokensOK_cons, if_neg hc] at htok
        rw [ih rest hlen htok]

/-- C4: `preprocessMessage` rewrites an `@token` (a maximal non-whitespace run)
    per the replacement rule `expandFileRef`: a relative token that resolves to
    an existing filesystem entry becomes `@<absolute-path>`, any other token is
    left character-for-character untouched; the surrounding text is preserved
    and tokens are processed independently (first conjunct).  A message none of
    whose tokens resolves to an existing entry is returned unchanged, with no
    error (second conjunct; totality of the Lean function models
    "never cause an error"). -/
theorem preprocessMessage_rewrite_spec :
    (∀ (fsx : String → Bool) (res : String → String → String) (wd pre tok post : String),
      pre.data.all (fun c => !(c = '@')) = true →
      tok.data ≠ [] →
      tok.data.all (fun d => !isJsWS d) = true →
      optAny (fun d => !isJsWS d) post.data.head? = false →
      preprocessMessage fsx res wd (pre ++ ("@") ++ tok ++ post) =
        pre ++ ("@") ++ (⟨expandFileRef fsx res wd tok.data⟩ : String) ++
          preprocessMessage fsx res wd post) ∧
    (∀ (fsx : String → Bool) (res : String → String → String) (wd msg : String),
      tokensOK (fun t => !fsx (res wd ⟨t⟩)) msg.data = true →
      preprocessMessage fsx res wd msg = msg) := by
  constructor
  · intro fsx res wd pre tok post hpre hne htok hpost
    apply stringEqOfData
    show preprocessAux fsx res wd (pre ++ ("@") ++ tok ++ post).data = _
    have hd1 : (pre ++ ("@") ++ tok ++ post).data =
        pre.data ++ '@' :: (tok.data ++ post.data) := by
      simp [data_append]
    have hd2 : (pre ++ ("@") ++ (⟨expandFileRef fsx res wd tok.data⟩ : String) ++
        preprocessMessage fsx res wd post).data =
        pre.data ++ '@' :: (expandFileRef fsx res wd tok.data ++
          preprocessAux fsx res wd post.data) := by
      simp [data_append, preprocessMessage]
    rw [hd1, hd2]
    exact preprocessAux_decompose fsx res wd pre.data tok.data post.data hpre hne htok hpost
  · intro fsx res wd msg htok
    apply stringEqOfData
    show preprocessAux fsx res wd msg.data = msg.data
    apply preprocessAux_tokensOK fsx res wd _ ?_ msg.data.length msg.data le_rfl htok
    intro tok hPtok
    unfold expandFileRef
    by_cases h1 : isAbsoluteL tok = true
    · rw [if_pos h1]
    · rw [if_neg h1]
      have hfx : fsx (res wd ⟨tok⟩) = false := by simpa using hPtok
      simp [hfx]

theorem preprocessMessage_rewrite_spec_witness :
    preprocessMessage fsW resW ("/abs/path") ("@package.json explain") =
      ("@/abs/path/package.json explain") ∧
    preprocessMessage fsW resW ("/abs/path") ("@missing.json explain") =
      ("@missing.json explain") := by
  constructor
  · have h := preprocessMessage_rewrite_spec.1 fsW resW ("/abs/path") ("") ("package.json")
      (" explain") (by decide) (by decide) (by decide) (by decide)
    have e1 : ("") ++ ("@") ++ ("package.json") ++ (" explain") = ("@package.json explain") := by
      decide
    have e2 : ("") ++ ("@") ++
        (⟨expandFileRef fsW resW ("/abs/path") ("package.json").data⟩ : String) ++
        preprocessMessage fsW resW ("/abs/path") (" explain") =
        ("@/abs/path/package.json explain") := by
      decide
    rw [e1, e2] at h
    exact h
  · have h := preprocessMessage_rewrite_spec.2 fsW resW ("/abs/path") ("@missing.json explain")
      (by decide)
    exact h

/-- C10: an `@token` whose token part is an absolute path (starts with `/`) is
    left completely untouched by `preprocessMessage`, and no filesystem
    existence check is consulted for it: the first conjunct holds for every
    filesystem oracle `fsx` and resolver `res` even when the referenced file
    does not exist, and the second shows that a message all of whose tokens are
    absolute is returned unchanged, again for every `fsx`/`res`. -/
theorem preprocessMessage_absolute_untouched :
    (∀ (fsx : String → Bool) (res : String → String → String) (wd pre tok post : String),
      pre.data.all (fun c => !(c = '@')) = true →
      tok.data ≠ [] →
      tok.data.all (fun d => !isJsWS d) = true →
      optAny (fun d => !isJsWS d) post.data.head? = false →
      isAbsoluteL tok.data = true →
      preprocessMessage fsx res wd (pre ++ ("@") ++ tok ++ post) =
        pre ++ ("@") ++ tok ++ preprocessMessage fsx res wd post) ∧
    (∀ (fsx : String → Bool) (res : String → String → String) (wd msg : String),
      tokensOK isAbsoluteL msg.data = true →
      preprocessMessage fsx res wd msg = msg) := by
  constructor
  · intro fsx res wd pre tok post hpre hne htok hpost habs
    apply stringEqOfData
    show preprocessAux fsx res wd (pre ++ ("@") ++ tok ++ post).data = _
    have hd1 : (pre ++ ("@") ++ tok ++ post).data =
        pre.data ++ '@' :: (tok.data ++ post.data) := by
      simp [data_append]
    have hd2 : (pre ++ ("@") ++ tok ++ preprocessMessage fsx res wd post).data =
        pre.data ++ '@' :: (tok.data ++ preprocessAux fsx res wd post.data) := by
      simp [data_append, preprocessMessage]
    rw [hd1, hd2]
    rw [preprocessAux_decompose fsx res wd pre.data tok.data post.data hpre hne htok hpost]
    rw [expandFileRef, if_pos habs]
  · intro fsx res wd msg htok
    apply stringEqOfData
    show preprocessAux fsx res wd msg.data = msg.data
    apply preprocessAux_tokensOK fsx res wd _ ?_ msg.data.length msg.data le_rfl htok
    intro tok hPtok
    rw [expandFileRef, if_pos hPtok]

theorem preprocessMessage_absolute_untouched_witness :
    preprocessMessage fsW resW ("/abs/path") ("@/etc/hosts explain") =
      ("@/etc/hosts explain") ∧
    preprocessMessage (fun _ => false) resW ("/abs/path") ("@/etc/hosts explain") =
      ("@/etc/hosts explain") :=
  ⟨preprocessMessage_absolute_untouched.2 fsW resW ("/abs/path") ("@/etc/hosts explain")
      (by decide),
    preprocessMessage_absolute_untouched.2 (fun _ => false) resW ("/abs/path")
      ("@/etc/hosts explain") (by decide)⟩

theorem findFirstIdx_none_iff {α : Type} (p : α → Bool) (ls : List α) :
    findFirstIdx p ls = none ↔ ls.all (fun a => !p a) = true := by
  induction ls with
  | nil => simp [findFirstIdx]
  | cons a as ih =>
    by_cases h : p a = true
    · simp [findFirstIdx, h]
    · simp [findFirstIdx, h, ih]

theorem findFirstIdx_some_iff {α : Type} (p : α → Bool) :
    ∀ (ls : List α) (i : Nat), findFirstIdx p ls = some i ↔
      ((ls.take i).all (fun a => !p a) = true ∧ optAny p (ls.drop i).head? = true) := by
  intro ls
  induction ls with
  | nil => intro i; simp [findFirstIdx, optAny]
  | cons a as ih =>
    intro i
    by_cases h : p a = true
    · cases i with
      | zero => simp [findFirstIdx, h, optAny]
      | succ j => simp [findFirstIdx, h]
    · cases i with
      | zero => simp [findFirstIdx, h, optAny]
      | succ j =>
        simp only [findFirstIdx, if_neg h, Option.map_eq_some', List.take_succ_cons,
          List.all_cons, List.drop_succ_cons, Bool.and_eq_true]
        constructor
        · rintro ⟨b, hb, hbj⟩
          have hbj2 : b = j := by omega
          subst hbj2
          have hx := (ih b).mp hb
          exact ⟨⟨by simpa using h, hx.1⟩, hx.2⟩
        · rintro ⟨⟨hpa, htake⟩, hdrop⟩
          exact ⟨j, (ih j).mpr ⟨htake, hdrop⟩, rfl⟩

/-- C6 counterexample: with transcript lines ["hi","A","hi","B"] and message
    "hi", the extractor's reference search returns index 0 — the FIRST line
    containing the message — while the last line containing it is index 2, so
    the claim's "locates the last line containing the outbound message" is
    false; consequently the extracted reply is "A\nhi\nB" (everything after
    line 0), not everything after the last occurrence. -/
theorem findUserMessageIndex_first_not_last :
    findUserMessageIndex (splitLinesL c6Transcript.data) (("hi").data) = some 0 ∧
    findLastIdx (fun l => hasSub l (("hi").data)) (splitLinesL c6Transcript.data) = some 2 ∧
    extractGeminiResponse c6Transcript ("hi") false = ("A\nhi\nB") := by
  refine ⟨by decide, by decide, by decide⟩

/-- C6 (amended): step 1 of the extraction algorithm locates the FIRST
    (lowest-index) line whose text contains the outbound message verbatim or —
    when the message exceeds 20 characters — its leading 20-character
    substring, both alternatives tested together on each line of a single
    upward pass (`msgLineHit`), so an earlier prefix-only match wins over a
    later verbatim match; if some line hits, everything after that line is the
    candidate region handed to the extraction loop. -/
theorem findUserMessageIndex_spec :
    (∀ (ls : List (List Char)) (msg : List Char) (i : Nat),
      findUserMessageIndex ls msg = some i ↔
        ((ls.take i).all (fun l => !msgLineHit msg l) = true ∧
          optAny (msgLineHit msg) (ls.drop i).head? = true)) ∧
    (∀ (ls : List (List Char)) (msg : List Char),
      findUserMessageIndex ls msg = none ↔
        ls.all (fun l => !msgLineHit msg l) = true) ∧
    (∀ (T M : String) (dbg : Bool) (i : Nat),
      findUserMessageIndex (splitLinesL T.data) M.data = some i →
      extractGeminiResponse T M dbg =
        ⟨jsTrimL (joinLinesL (extractLoop extInit ((splitLinesL T.data).drop (i + 1))))⟩) := by
  refine ⟨fun ls msg i => findFirstIdx_some_iff _ ls i,
    fun ls msg => findFirstIdx_none_iff _ ls, ?_⟩
  intro T M dbg i h
  simp only [extractGeminiResponse, extractRefIndex]
  rw [h]
  simp

theorem findUserMessageIndex_spec_witness :
    findUserMessageIndex (splitLinesL c6Transcript.data) (("hi").data) = some 0 ∧
    extractGeminiResponse c6Transcript ("hi") false =
      ⟨jsTrimL (joinLinesL (extractLoop extInit
        ((splitLinesL c6Transcript.data).drop (0 + 1))))⟩ :=
  ⟨by decide, findUserMessageIndex_spec.2.2 c6Transcript ("hi") false 0 (by decide)⟩

theorem extractLoop_blank_step (st : ExtState) (b : List Char) (rest : List (List Char))
    (hfound : st.found = true) (hcode : st.inCode = false) (hbox : st.inBox = false)
    (hb : b.all isJsWS = true) :
    extractLoop st (b :: rest) =
      if st.empties + 1 > 3 then []
      else
        b :: extractLoop { found := true, empties := st.empties + 1,
                           inCode := false, inBox := false } rest := by
  obtain ⟨f, e, ic, ib⟩ := st
  simp only at hfound hcode hbox
  subst hfound
  subst hcode
  subst hbox
  simp only [extractLoop, blank_codeBlock hb, blank_boxBorder hb, blank_processing hb,
    blank_searching hb, blank_geminiStart hb, blank_geminiPrompt hb, blank_shellMode hb,
    blank_promptReturn hb, blank_jsTrimL hb, hb]
  simp

/-- C9 (implicit): once the extraction loop is retaining response content
    (`found` set, not inside a code fence or box, blank counter clear), a run
    of four or more whitespace-only lines stops retention at that run: the
    first three blanks are still pushed (and later removed by the final trim
    when trailing), the fourth triggers the `emptyLineCount > 3` break, and the
    whole remainder of the transcript — whatever it contains — is dropped. -/
theorem extractLoop_blank_run_truncates (st : ExtState) (b1 b2 b3 b4 : List Char)
    (rest : List (List Char))
    (hfound : st.found = true) (hcode : st.inCode = false) (hbox : st.inBox = false)
    (hemp : st.empties = 0)
    (h1 : b1.all isJsWS = true) (h2 : b2.all isJsWS = true)
    (h3 : b3.all isJsWS = true) (h4 : b4.all isJsWS = true) :
    extractLoop st (b1 :: b2 :: b3 :: b4 :: rest) = [b1, b2, b3] := by
  rw [extractLoop_blank_step st b1 _ hfound hcode hbox h1, hemp]
  norm_num
  rw [extractLoop_blank_step _ b2 _ rfl rfl rfl h2]
  norm_num
  rw [extractLoop_blank_step _ b3 _ rfl rfl rfl h3]
  norm_num
  rw [extractLoop_blank_step _ b4 _ rfl rfl rfl h4]
  norm_num

theorem extractLoop_blank_run_truncates_witness :
    extractLoop { found := true, empties := 0, inCode := false, inBox := false }
      ([] :: [] :: [] :: [] :: [("DROPPED").data]) = [[], [], []] :=
  extractLoop_blank_run_truncates
    { found := true, empties := 0, inCode := false, inBox := false }
    [] [] [] [] [("DROPPED").data] rfl rfl rfl rfl (by decide) (by decide) (by decide)
    (by decide)

/-- C7 counterexample: a process that wrote "partial output" to stdout and
    then went silent forever (it never closes) makes the one-shot `gemini_send`
    handler produce the error text "Error: Response timeout" — which contains
    none of the collected output — and the adapter never terminates the child
    (the kill flag of the model is `false`; nothing in src/unnamed/part_002
    ever calls `kill`).  This refutes both the "forcibly terminates the
    external process" and the "resolves with whatever partial output was
    collected" parts of the claim. -/
theorem oneShot_idle_no_partial_result :
    geminiSendOutcome 30000 c7Beh = (("Error: Response timeout"), false) ∧
    c7Beh.stdoutData = ("partial output") ∧
    includesS ("Error: Response timeout") ("partial output") = false := by
  refine ⟨by decide, by decide, by decide⟩

/-- C7 (amended): in the one-shot transport there is no idle-output window at
    all; the handler races `sendOneShot` against a single total timeout
    (default 30000 ms).  When the child does not close before the timeout (and
    no spawn error fired), the call yields the error text
    "Error: Response timeout" — independent of whatever partial output was
    collected, which is discarded — and the adapter never terminates the child
    process.  The call never hangs: `geminiSendOutcome` is total. -/
theorem oneShot_timeout_error_no_kill (timeout : Nat) (beh : OneShotBehavior)
    (hspawn : beh.spawnError = none) (hclose : closesBefore timeout beh = false) :
    geminiSendOutcome timeout beh = (("Error: Response timeout"), false) := by
  simp [geminiSendOutcome, hspawn, hclose]

theorem oneShot_timeout_error_no_kill_witness :
    c7Beh.spawnError = none ∧ closesBefore 30000 c7Beh = false ∧
    geminiSendOutcome 30000 c7Beh = (("Error: Response timeout"), false) :=
  ⟨rfl, by decide, oneShot_timeout_error_no_kill 30000 c7Beh rfl (by decide)⟩

/-- C8: when the external process exits with code 0, the `sendOneShot` promise
    resolves with exactly the collected stdout cleaned as in the source: split
    into lines, every line containing the literal "Loaded cached credentials."
    removed, the remaining lines rejoined with newlines in their original
    order (the filtered list is a sublist of the original lines), and the
    result trimmed; no kept line is altered and none contains the boilerplate
    marker. -/
theorem sendOneShot_success_cleaning (beh : OneShotBehavior) (t : Nat)
    (hspawn : beh.spawnError = none) (hexit : beh.exitEvent = some (t, 0)) :
    sendOneShotResult beh = OneShotResult.resolved (cleanedOneShot beh.stdoutData) ∧
    List.Sublist ((splitLinesL beh.stdoutData.data).filter
        (fun l => !hasSub l (("Loaded cached credentials.").data)))
      (splitLinesL beh.stdoutData.data) ∧
    (∀ l ∈ (splitLinesL beh.stdoutData.data).filter
        (fun l => !hasSub l (("Loaded cached credentials.").data)),
      hasSub l (("Loaded cached credentials.").data) = false) := by
  refine ⟨?_, List.filter_sublist _, ?_⟩
  · unfold sendOneShotResult
    rw [hspawn, hexit]
    simp
  · intro l hl
    have hmem := List.of_mem_filter hl
    simpa using hmem

theorem sendOneShot_success_cleaning_witness :
    sendOneShotResult c8Beh = OneShotResult.resolved (("Hello")) ∧
    cleanedOneShot c8Beh.stdoutData = ("Hello") := by
  have h := (sendOneShot_success_cleaning c8Beh 5000 rfl rfl).1
  refine ⟨?_, by decide⟩
  rw [h]
  decide
